import Mathlib

/-!
Verification development for the TaskFlow repository.

Part 1 embeds the leaderboard reconciliation pipeline of the Google Apps
Script backend (function handleGetLeaderboard together with its helpers
buildRigToNameMap and the region/identity logic).  Sheet rows are modelled
as records of already-extracted cell values: a numeric cell is carried as
the rational number that parseFloat(...) || 0 produced (0 for blank or
unparseable cells, the parse itself being external library behaviour), and
a text cell as the raw string, trimmed inside the step functions exactly
where the source calls .trim().

Part 2 embeds the resilient fetch client and the two-tier cache of
src/services/googleSheets.ts.

Numbers: JavaScript numbers are modelled as rationals; none of the
verified claims depends on binary floating point rounding.  Times are
integers (milliseconds, as produced by Date.now()).
-/

/- ------------------------------------------------------------------ -/
/- Association lists: the model of plain JavaScript objects used as
   maps.  Key order is insertion order, matching Object.keys for the
   non-integer-like string keys used by the source (collector names and
   rig identifiers).  aset models obj[k] = v: it overwrites the first
   binding in place or appends a fresh binding at the end. -/
/- ------------------------------------------------------------------ -/

def alookup {β : Type} : List (String × β) → String → Option β
  | [], _ => none
  | (k1, v) :: rest, k => if k1 = k then some v else alookup rest k

def aset {β : Type} : List (String × β) → String → β → List (String × β)
  | [], k, v => [(k, v)]
  | (k1, v1) :: rest, k, v =>
    if k1 = k then (k, v) :: rest else (k1, v1) :: aset rest k v

/- JavaScript || on strings: the empty string is falsy. -/
def jsOrElse (a b : String) : String := if a = "" then b else a

/- String.prototype.trim / toUpperCase / toLowerCase, modelled on the
   character list underlying the string (whitespace per Char.isWhitespace,
   case mapping per Char.toUpper and Char.toLower; the sources only ever
   feed these ASCII sheet text). -/
def trimChars (cs : List Char) : List Char :=
  ((cs.dropWhile Char.isWhitespace).reverse.dropWhile Char.isWhitespace).reverse

def jsTrim (s : String) : String := String.mk (trimChars s.data)

def jsToUpper (s : String) : String := String.mk (s.data.map Char.toUpper)

def jsToLower (s : String) : String := String.mk (s.data.map Char.toLower)

/- Case-insensitive-free substring test used to model
   String.prototype.indexOf(needle) >= 0. -/
def hasSubList (needle : List Char) : List Char → Bool
  | [] => needle.isEmpty
  | c :: t => needle.isPrefixOf (c :: t) || hasSubList needle t

def strIncludes (hay needle : String) : Bool := hasSubList needle.toList hay.toList

/- ------------------------------------------------------------------ -/
/- Data rows.  Each list of rows models the data region of a sheet,
   i.e. everything below the header row that the source loops skip. -/
/- ------------------------------------------------------------------ -/

/- A data row of CA_TAGGED: columns A (collector name, may be blank),
   B (rig number), C (site) and D (hours, via parseFloat || 0). -/
structure CaRow where
  nameCell : String
  rigCell : String
  siteCell : String
  hoursCell : ℚ
deriving DecidableEq, Repr

/- A data row of the Collector Task Assignments Log as read by the
   leaderboard pass: column 0 (collector) and column 4 (logged hours). -/
structure LogRow where
  nameCell : String
  hoursCell : ℚ
deriving DecidableEq, Repr

/- A data row of the Collectors sheet: column A (name), column B (rig). -/
structure RosterRow where
  nameCell : String
  rigCell : String
deriving DecidableEq, Repr

/- The per-collector accumulator object built by handleGetLeaderboard. -/
structure Agg where
  name : String
  region : String
  hours : ℚ
  tasks : ℕ
  assigned : ℕ
deriving DecidableEq, Repr

structure LeaderboardEntry where
  rank : ℕ
  collectorName : String
  hoursLogged : ℚ
  tasksCompleted : ℕ
  tasksAssigned : ℕ
  completionRate : ℤ
  region : String
deriving DecidableEq, Repr

/- ------------------------------------------------------------------ -/
/- buildRigToNameMap: scans the Collectors sheet and keeps rig -> name
   for rows where both cells are nonempty after trimming; a later row
   with the same rig overwrites the earlier binding (last wins). -/
/- ------------------------------------------------------------------ -/

def buildRigToNameMap (roster : List RosterRow) : List (String × String) :=
  roster.foldl
    (fun m r =>
      let name := jsTrim r.nameCell
      let rig := jsTrim r.rigCell
      if name ≠ "" ∧ rig ≠ "" then aset m rig name else m)
    []

/- Region classification: site.toUpperCase().indexOf("SF") >= 0. -/
def regionOf (site : String) : String :=
  if strIncludes (jsToUpper site) "SF" then "SF" else "MX"

/- Identity resolution: nameCell || rigToName[rigOrName] || rigOrName,
   with JavaScript falsiness of the empty string and of a missing map
   entry (undefined). -/
def resolveCollectorName (nameCell rigOrName : String)
    (rigMap : List (String × String)) : String :=
  jsOrElse nameCell (jsOrElse ((alookup rigMap rigOrName).getD "") rigOrName)

/- One iteration of the CA_TAGGED loop in handleGetLeaderboard. -/
def primaryStep (rigMap : List (String × String)) (m : List (String × Agg))
    (row : CaRow) : List (String × Agg) :=
  let rigOrName := jsTrim row.rigCell
  let site := jsTrim row.siteCell
  let hours := row.hoursCell
  let nameCell := jsTrim row.nameCell
  let collectorName := resolveCollectorName nameCell rigOrName rigMap
  if collectorName = "" then m
  else
    let region := regionOf site
    let m1 :=
      match alookup m collectorName with
      | none =>
        aset m collectorName
          { name := collectorName, region := region, hours := 0, tasks := 0, assigned := 0 }
      | some _ => m
    match alookup m1 collectorName with
    | none => m1
    | some a =>
      let a1 :=
        { a with hours := a.hours + hours, tasks := a.tasks + 1, assigned := a.assigned + 1 }
      let a2 := if a1.region = "" ∨ a1.region = "MX" then { a1 with region := region } else a1
      aset m1 collectorName a2

/- One iteration of the assignment-log loop.  The source line

     collectors[logName].hours = Math.max(collectors[logName].hours, collectors[logName].hours);

   takes the maximum of the existing aggregate hours with itself: the
   logged hours value read into logHours is not used in this branch. -/
def secondaryStep (m : List (String × Agg)) (row : LogRow) : List (String × Agg) :=
  let logName := jsTrim row.nameCell
  let logHours := row.hoursCell
  match alookup m logName with
  | some a =>
    if logName ≠ "" then
      if logHours > 0 then aset m logName { a with hours := max a.hours a.hours } else m
    else m
  | none =>
    if logName ≠ "" then
      aset m logName { name := logName, region := "MX", hours := logHours, tasks := 1, assigned := 1 }
    else m

/- The two reconciliation passes of handleGetLeaderboard. -/
def reconcile (roster : List RosterRow) (caRows : List CaRow) (logRows : List LogRow) :
    List (String × Agg) :=
  let rigMap := buildRigToNameMap roster
  let afterPrimary := caRows.foldl (primaryStep rigMap) []
  logRows.foldl secondaryStep afterPrimary

/- ------------------------------------------------------------------ -/
/- The sort.  entries.sort((a, b) => b.hours - a.hours) is, per the
   ECMAScript specification implemented by the V8 runtime, a stable sort
   by hours descending.  A stable sort with respect to a total preorder
   is uniquely determined by its input, so it is modelled by the stable
   structural insertion sort below: each element is inserted after every
   already-placed element whose hours are greater or equal. -/
/- ------------------------------------------------------------------ -/

def insertByHours (e : Agg) : List Agg → List Agg
  | [] => [e]
  | x :: xs => if x.hours < e.hours then e :: x :: xs else x :: insertByHours e xs

def sortAggs (l : List Agg) : List Agg :=
  l.foldl (fun acc e => insertByHours e acc) []

/- Math.round, as used for the completion rate. -/
def jsRound (q : ℚ) : ℤ := ⌊q + 1 / 2⌋

/- e.assigned > 0 ? Math.round((e.tasks / e.assigned) * 100) : 0 -/
def rateOf (tasks assigned : ℕ) : ℤ :=
  if 0 < assigned then jsRound ((tasks : ℚ) / (assigned : ℚ) * 100) else 0

/- entries.map((e, idx) => ...rank: idx + 1...), unrolled structurally:
   buildRanked i l produces the entries of l with ranks i+1, i+2, ... -/
def buildRanked (i : ℕ) : List Agg → List LeaderboardEntry
  | [] => []
  | e :: rest =>
    { rank := i + 1, collectorName := e.name, hoursLogged := e.hours,
      tasksCompleted := e.tasks, tasksAssigned := e.assigned,
      completionRate := rateOf e.tasks e.assigned, region := e.region } :: buildRanked (i + 1) rest

/- handleGetLeaderboard on a cache miss: reconcile both sources, take
   the aggregates in insertion order (Object.keys), sort, rank. -/
def handleGetLeaderboard (roster : List RosterRow) (caRows : List CaRow)
    (logRows : List LogRow) : List LeaderboardEntry :=
  buildRanked 0 (sortAggs ((reconcile roster caRows logRows).map (fun p => p.2)))

/- ------------------------------------------------------------------ -/
/- Helper lemmas about association lists. -/
/- ------------------------------------------------------------------ -/

theorem alookup_aset_self {β : Type} (m : List (String × β)) (k : String) (v : β) :
    alookup (aset m k v) k = some v := by
  induction m with
  | nil => simp [aset, alookup]
  | cons p rest ih =>
    by_cases h : p.1 = k
    · simp [aset, h, alookup]
    · simp [aset, h, alookup, ih]

theorem alookup_aset_ne {β : Type} (m : List (String × β)) (k k1 : String) (v : β)
    (h : k1 ≠ k) : alookup (aset m k v) k1 = alookup m k1 := by
  induction m with
  | nil => simp [aset, alookup, Ne.symm h]
  | cons p rest ih =>
    by_cases hp : p.1 = k
    · subst hp
      simp [aset, alookup, Ne.symm h]
    · simp only [aset, if_neg hp, alookup]
      by_cases hp1 : p.1 = k1 <;> simp [hp1, ih]

theorem mem_aset {β : Type} (m : List (String × β)) (k : String) (v : β) (p : String × β)
    (hp : p ∈ aset m k v) : p = (k, v) ∨ p ∈ m := by
  induction m with
  | nil => simpa [aset] using hp
  | cons q rest ih =>
    by_cases hq : q.1 = k
    · simp only [aset, if_pos hq] at hp
      rcases List.mem_cons.mp hp with h | h
      · exact Or.inl h
      · exact Or.inr (List.mem_cons_of_mem _ h)
    · simp only [aset, if_neg hq] at hp
      rcases List.mem_cons.mp hp with h | h
      · exact Or.inr (h ▸ List.mem_cons_self _ _)
      · rcases ih h with h1 | h1
        · exact Or.inl h1
        · exact Or.inr (List.mem_cons_of_mem _ h1)

/- ------------------------------------------------------------------ -/
/- Properties of the stable descending sort. -/
/- ------------------------------------------------------------------ -/

abbrev HoursDesc (l : List Agg) : Prop := l.Pairwise (fun a b => b.hours ≤ a.hours)

theorem insertByHours_perm (e : Agg) (l : List Agg) :
    List.Perm (insertByHours e l) (e :: l) := by
  induction l with
  | nil => simp [insertByHours]
  | cons x xs ih =>
    by_cases h : x.hours < e.hours
    · simp [insertByHours, h]
    · simp only [insertByHours, if_neg h]
      exact (ih.cons x).trans (List.Perm.swap e x xs)

theorem insertByHours_sorted (e : Agg) (l : List Agg) (hs : HoursDesc l) :
    HoursDesc (insertByHours e l) := by
  induction l with
  | nil => simp [insertByHours, HoursDesc]
  | cons x xs ih =>
    rcases List.pairwise_cons.mp hs with ⟨hx, hxs⟩
    by_cases h : x.hours < e.hours
    · simp only [insertByHours, if_pos h]
      refine List.pairwise_cons.mpr ⟨?_, hs⟩
      intro y hy
      rcases List.mem_cons.mp hy with rfl | hy
      · exact le_of_lt h
      · exact le_trans (hx y hy) (le_of_lt h)
    · simp only [insertByHours, if_neg h]
      refine List.pairwise_cons.mpr ⟨?_, ih hxs⟩
      intro y hy
      rcases List.mem_cons.mp ((insertByHours_perm e xs).mem_iff.mp hy) with rfl | hy
      · exact le_of_not_lt h
      · exact hx y hy

theorem filter_insertByHours (h : ℚ) (e : Agg) (l : List Agg) (hs : HoursDesc l) :
    (insertByHours e l).filter (fun x => decide (x.hours = h)) =
      if e.hours = h then
        l.filter (fun x => decide (x.hours = h)) ++ [e]
      else
        l.filter (fun x => decide (x.hours = h)) := by
  induction l with
  | nil =>
    by_cases he : e.hours = h <;> simp [insertByHours, List.filter, he]
  | cons x xs ih =>
    rcases List.pairwise_cons.mp hs with ⟨hx, hxs⟩
    by_cases hlt : x.hours < e.hours
    · simp only [insertByHours, if_pos hlt]
      by_cases he : e.hours = h
      · have hxne : ¬ x.hours = h := by
          intro hh
          exact absurd (hh.trans he.symm) (ne_of_lt hlt)
        have hnone : ∀ y ∈ xs, ¬ y.hours = h := by
          intro y hy hh
          have h1 : y.hours ≤ x.hours := hx y hy
          have h2 : x.hours < y.hours := by rw [hh, ← he]; exact hlt
          exact absurd h1 (not_le_of_lt h2)
        have hfil : xs.filter (fun x => decide (x.hours = h)) = [] := by
          rw [List.filter_eq_nil_iff]
          intro y hy
          simpa using hnone y hy
        simp [List.filter, he, hxne, hfil]
      · simp [List.filter, he]
    · simp only [insertByHours, if_neg hlt]
      by_cases hxh : x.hours = h
      · simp [List.filter, hxh, ih hxs]
        by_cases he : e.hours = h <;> simp [he]
      · simp [List.filter, hxh, ih hxs]

theorem sortLoopSorted (l : List Agg) (acc : List Agg) (hs : HoursDesc acc) :
    HoursDesc (l.foldl (fun acc e => insertByHours e acc) acc) := by
  induction l generalizing acc with
  | nil => simpa using hs
  | cons e rest ih => exact ih _ (insertByHours_sorted e acc hs)

theorem sortLoopFilter (h : ℚ) (l : List Agg) (acc : List Agg) (hs : HoursDesc acc) :
    (l.foldl (fun acc e => insertByHours e acc) acc).filter (fun x => decide (x.hours = h)) =
      acc.filter (fun x => decide (x.hours = h)) ++ l.filter (fun x => decide (x.hours = h)) := by
  induction l generalizing acc with
  | nil => simp
  | cons e rest ih =>
    rw [List.foldl_cons, ih _ (insertByHours_sorted e acc hs), filter_insertByHours h e acc hs]
    by_cases he : e.hours = h <;> simp [List.filter, he]

theorem sortAggs_sorted (l : List Agg) : HoursDesc (sortAggs l) :=
  sortLoopSorted l [] (by simp [HoursDesc])

theorem sortAggs_filter (h : ℚ) (l : List Agg) :
    (sortAggs l).filter (fun x => decide (x.hours = h)) =
      l.filter (fun x => decide (x.hours = h)) :=
  (sortLoopFilter h l [] (by simp [HoursDesc])).trans (by simp)

theorem sortLoopPerm (l : List Agg) (acc : List Agg) :
    List.Perm (l.foldl (fun acc e => insertByHours e acc) acc) (acc ++ l) := by
  induction l generalizing acc with
  | nil => simp
  | cons e rest ih =>
    rw [List.foldl_cons]
    refine (ih (insertByHours e acc)).trans ?_
    have h1 : List.Perm (insertByHours e acc ++ rest) ((e :: acc) ++ rest) :=
      (insertByHours_perm e acc).append_right rest
    refine h1.trans ?_
    have h2 : List.Perm (e :: (acc ++ rest)) (acc ++ e :: rest) := List.perm_middle.symm
    simpa using h2

theorem sortAggs_perm (l : List Agg) : List.Perm (sortAggs l) l :=
  (sortLoopPerm l []).trans (by simp)

/- ------------------------------------------------------------------ -/
/- Properties of buildRanked. -/
/- ------------------------------------------------------------------ -/

theorem buildRanked_map_hours (i : ℕ) (l : List Agg) :
    (buildRanked i l).map (fun e => e.hoursLogged) = l.map (fun a => a.hours) := by
  induction l generalizing i with
  | nil => simp [buildRanked]
  | cons a rest ih => simp [buildRanked, ih]

theorem buildRanked_length (i : ℕ) (l : List Agg) :
    (buildRanked i l).length = l.length := by
  induction l generalizing i with
  | nil => simp [buildRanked]
  | cons a rest ih => simp [buildRanked, ih]

theorem buildRanked_get_rank (l : List Agg) (i j : ℕ)
    (hj : j < (buildRanked i l).length) :
    ((buildRanked i l).get ⟨j, hj⟩).rank = i + j + 1 := by
  induction l generalizing i j with
  | nil => simp [buildRanked] at hj
  | cons a rest ih =>
    cases j with
    | zero => simp [buildRanked]
    | succ j1 =>
      have hj1 : j1 < (buildRanked (i + 1) rest).length := by
        have h2 := hj
        simp only [buildRanked, List.length_cons] at h2
        omega
      have h2 := ih (i + 1) j1 hj1
      have h3 : (buildRanked i (a :: rest)).get ⟨j1 + 1, hj⟩ =
          (buildRanked (i + 1) rest).get ⟨j1, hj1⟩ := rfl
      rw [h3, h2]
      omega

theorem buildRanked_mem (i : ℕ) (l : List Agg) (e : LeaderboardEntry)
    (he : e ∈ buildRanked i l) :
    ∃ a ∈ l, e.tasksCompleted = a.tasks ∧ e.tasksAssigned = a.assigned ∧
      e.completionRate = rateOf a.tasks a.assigned := by
  induction l generalizing i with
  | nil => simp [buildRanked] at he
  | cons a rest ih =>
    rcases List.mem_cons.mp (by simpa [buildRanked] using he) with rfl | h1
    · exact ⟨a, List.mem_cons_self a rest, rfl, rfl, rfl⟩
    · rcases ih (i + 1) h1 with ⟨b, hb, h2⟩
      exact ⟨b, List.mem_cons_of_mem a hb, h2⟩

/- ------------------------------------------------------------------ -/
/- The tasks = assigned invariant of the reconciliation map. -/
/- ------------------------------------------------------------------ -/

def TasksMatch (m : List (String × Agg)) : Prop :=
  ∀ p ∈ m, p.2.tasks = p.2.assigned ∧ 1 ≤ p.2.assigned

theorem tasksMatch_aset (m : List (String × Agg)) (k : String) (v : Agg)
    (hm : TasksMatch m) (hv : v.tasks = v.assigned ∧ 1 ≤ v.assigned) :
    TasksMatch (aset m k v) := by
  intro p hp
  rcases mem_aset m k v p hp with rfl | hp1
  · exact hv
  · exact hm p hp1

theorem alookup_mem {β : Type} (m : List (String × β)) (k : String) (v : β)
    (h : alookup m k = some v) : (k, v) ∈ m := by
  induction m with
  | nil => simp [alookup] at h
  | cons q rest ih =>
    by_cases hq : q.1 = k
    · rw [alookup, if_pos hq] at h
      have h2 : q.2 = v := by injection h
      have h3 : (k, v) = q := by rw [← hq, ← h2]
      rw [h3]
      exact List.mem_cons_self q rest
    · rw [alookup, if_neg hq] at h
      exact List.mem_cons_of_mem q (ih h)

theorem aset_aset {β : Type} (m : List (String × β)) (k : String) (v w : β) :
    aset (aset m k v) k w = aset m k w := by
  induction m with
  | nil => simp [aset]
  | cons p rest ih =>
    by_cases hp : p.1 = k
    · simp [aset, hp]
    · simp [aset, hp, ih]

theorem tasksMatch_primaryStep (rigMap : List (String × String)) (m : List (String × Agg))
    (row : CaRow) (hm : TasksMatch m) : TasksMatch (primaryStep rigMap m row) := by
  unfold primaryStep
  by_cases hc : resolveCollectorName (jsTrim row.nameCell) (jsTrim row.rigCell) rigMap = ""
  · simpa [hc] using hm
  · simp only [if_neg hc]
    cases h0 : alookup m (resolveCollectorName (jsTrim row.nameCell) (jsTrim row.rigCell) rigMap) with
    | none =>
      simp only [alookup_aset_self]
      rw [aset_aset]
      apply tasksMatch_aset m _ _ hm
      constructor
      · split <;> simp
      · split <;> simp
    | some a =>
      simp only [h0]
      have ha := hm _ (alookup_mem m _ a h0)
      apply tasksMatch_aset m _ _ hm
      have h1 : a.tasks = a.assigned := ha.1
      have h2 : 1 ≤ a.assigned := ha.2
      constructor
      · split <;> simp [h1]
      · split <;> simp [Nat.le_succ_of_le h2]

theorem tasksMatch_secondaryStep (m : List (String × Agg)) (row : LogRow)
    (hm : TasksMatch m) : TasksMatch (secondaryStep m row) := by
  simp only [secondaryStep]
  cases h0 : alookup m (jsTrim row.nameCell) with
  | some a =>
    have ha := hm _ (alookup_mem m _ a h0)
    have h1 : a.tasks = a.assigned := ha.1
    have h2 : 1 ≤ a.assigned := ha.2
    by_cases hn : jsTrim row.nameCell = ""
    · simp [hn, hm]
    · by_cases hh : row.hoursCell > 0
      · simp only [hn, hh, ne_eq, not_false_iff, if_true]
        exact tasksMatch_aset m _ _ hm ⟨h1, h2⟩
      · simp [hn, hh, hm]
  | none =>
    by_cases hn : jsTrim row.nameCell = ""
    · simp [hn, hm]
    · simp only [hn, ne_eq, not_false_iff, if_true]
      exact tasksMatch_aset m _ _ hm (by simp)

theorem tasksMatch_reconcile (roster : List RosterRow) (caRows : List CaRow)
    (logRows : List LogRow) : TasksMatch (reconcile roster caRows logRows) := by
  unfold reconcile
  have h1 : ∀ (rows : List CaRow) (m : List (String × Agg)), TasksMatch m →
      TasksMatch (rows.foldl (primaryStep (buildRigToNameMap roster)) m) := by
    intro rows
    induction rows with
    | nil => intro m hm; simpa using hm
    | cons r rest ih =>
      intro m hm
      exact ih _ (tasksMatch_primaryStep _ m r hm)
  have h2 : ∀ (rows : List LogRow) (m : List (String × Agg)), TasksMatch m →
      TasksMatch (rows.foldl secondaryStep m) := by
    intro rows
    induction rows with
    | nil => intro m hm; simpa using hm
    | cons r rest ih =>
      intro m hm
      exact ih _ (tasksMatch_secondaryStep m r hm)
  exact h2 logRows _ (h1 caRows [] (by intro p hp; simp at hp))

theorem rateOf_self (t : ℕ) (ht : 1 ≤ t) : rateOf t t = 100 := by
  unfold rateOf jsRound
  rw [if_pos (by omega)]
  have hne : (t : ℚ) ≠ 0 := Nat.cast_ne_zero.mpr (by omega)
  rw [div_self hne, one_mul]
  have h201 : (100 : ℚ) + 1 / 2 = 201 / 2 := by norm_num
  rw [h201, Int.floor_eq_iff]
  constructor <;> norm_num

/- ------------------------------------------------------------------ -/
/- The sticky-SF step lemma. -/
/- ------------------------------------------------------------------ -/

theorem primaryStep_sticky (rigMap : List (String × String)) (m : List (String × Agg))
    (row : CaRow) (k : String) (a : Agg)
    (ha : alookup m k = some a) (hsf : a.region = "SF") :
    ∃ b, alookup (primaryStep rigMap m row) k = some b ∧ b.region = "SF" := by
  simp only [primaryStep]
  by_cases hc : resolveCollectorName (jsTrim row.nameCell) (jsTrim row.rigCell) rigMap = ""
  · exact ⟨a, by simp [hc, ha], hsf⟩
  · rw [if_neg hc]
    cases h0 : alookup m (resolveCollectorName (jsTrim row.nameCell) (jsTrim row.rigCell) rigMap) with
    | none =>
      have hk : k ≠ resolveCollectorName (jsTrim row.nameCell) (jsTrim row.rigCell) rigMap := by
        intro h
        rw [← h, ha] at h0
        cases h0
      dsimp only
      rw [alookup_aset_self]
      dsimp only
      rw [aset_aset, alookup_aset_ne _ _ _ _ hk]
      exact ⟨a, ha, hsf⟩
    | some b =>
      dsimp only
      rw [h0]
      dsimp only
      by_cases hk : resolveCollectorName (jsTrim row.nameCell) (jsTrim row.rigCell) rigMap = k
      · have hba : b = a := by
          rw [hk, ha] at h0
          injection h0 with h2
          exact h2.symm
        have hbsf : b.region = "SF" := by rw [hba]; exact hsf
        rw [if_neg (by simp [hbsf])]
        rw [hk, alookup_aset_self]
        exact ⟨_, rfl, hbsf⟩
      · refine ⟨a, ?_, hsf⟩
        rw [alookup_aset_ne _ _ _ _ (fun h => hk h.symm)]
        exact ha

theorem foldl_primary_sticky (rigMap : List (String × String)) (rows : List CaRow)
    (m : List (String × Agg)) (k : String) (a : Agg)
    (ha : alookup m k = some a) (hsf : a.region = "SF") :
    ∃ b, alookup (rows.foldl (primaryStep rigMap) m) k = some b ∧ b.region = "SF" := by
  induction rows generalizing m a with
  | nil => exact ⟨a, by simpa using ha, hsf⟩
  | cons r rest ih =>
    rcases primaryStep_sticky rigMap m r k a ha hsf with ⟨b, hb, hbsf⟩
    rcases ih (primaryStep rigMap m r) b hb hbsf with ⟨c, hcc, hcsf⟩
    exact ⟨c, by simpa using hcc, hcsf⟩

/- ------------------------------------------------------------------ -/
/- The rig map never binds an empty rig or an empty name. -/
/- ------------------------------------------------------------------ -/

theorem buildRig_nonempty (roster : List RosterRow) :
    ∀ k v, alookup (buildRigToNameMap roster) k = some v → k ≠ "" ∧ v ≠ "" := by
  unfold buildRigToNameMap
  have haux : ∀ (rs : List RosterRow) (m : List (String × String)),
      (∀ k v, alookup m k = some v → k ≠ "" ∧ v ≠ "") →
      ∀ k v,
        alookup (rs.foldl (fun m r =>
          if jsTrim r.nameCell ≠ "" ∧ jsTrim r.rigCell ≠ "" then
            aset m (jsTrim r.rigCell) (jsTrim r.nameCell)
          else m) m) k = some v → k ≠ "" ∧ v ≠ "" := by
    intro rs
    induction rs with
    | nil => intro m hm; simpa using hm
    | cons r rest ih =>
      intro m hm
      simp only [List.foldl_cons]
      apply ih
      by_cases hr : jsTrim r.nameCell ≠ "" ∧ jsTrim r.rigCell ≠ ""
      · rw [if_pos hr]
        intro k v hkv
        by_cases hk : k = jsTrim r.rigCell
        · rw [hk, alookup_aset_self] at hkv
          injection hkv with h2
          rw [hk, ← h2]
          exact ⟨hr.2, hr.1⟩
        · rw [alookup_aset_ne _ _ _ _ hk] at hkv
          exact hm k v hkv
      · rw [if_neg hr]
        exact hm
  exact haux roster [] (by intro k v h; simp [alookup] at h)

/- ------------------------------------------------------------------ -/
/- Claim theorems for the reconciliation pipeline. -/
/- ------------------------------------------------------------------ -/

unseal Rat.add Rat.sub Rat.mul Rat.inv in
/-- C1: the claimed max-not-sum reconciliation does not hold on the code.
At the failing input (one CA_TAGGED row giving Ana a primary total of 4
hours, one assignment-log row carrying 6 hours for Ana), the final
aggregate keeps hoursLogged = 4: the secondary pass takes the maximum of
the aggregate hours with itself (source line 193), so the secondary value
6 = max(4, 6) is never applied.  The aggregate is NOT max(primary,
secondary), contradicting the claim (though it is indeed never the sum). -/
theorem C1_secondary_pass_ignores_log_hours :
    (alookup (reconcile [] [⟨"Ana", "", "MX-1", 4⟩] [⟨"Ana", 6⟩]) "Ana").map Agg.hours
      = some 4 ∧
    (alookup (reconcile [] [⟨"Ana", "", "MX-1", 4⟩] [⟨"Ana", 6⟩]) "Ana").map Agg.hours
      ≠ some (max 4 6) := by
  constructor
  · decide
  · decide

unseal Rat.add Rat.sub Rat.mul Rat.inv in
/-- C5: the sticky-SF invariant holds.  First part: starting from any
aggregate map in which collector k already has region SF, folding any
further CA_TAGGED rows (including rows whose site classifies as MX)
leaves the region SF.  Second part: the upgrade MX to SF does happen,
witnessed by a concrete step. -/
theorem C5_sticky_sf_region :
    (∀ (rigMap : List (String × String)) (rows : List CaRow) (m : List (String × Agg))
      (k : String) (a : Agg), alookup m k = some a → a.region = "SF" →
      ∃ b, alookup (rows.foldl (primaryStep rigMap) m) k = some b ∧ b.region = "SF") ∧
    (∃ (rigMap : List (String × String)) (row : CaRow) (m : List (String × Agg))
      (k : String) (a b : Agg),
      alookup m k = some a ∧ a.region = "MX" ∧
      alookup (primaryStep rigMap m row) k = some b ∧ b.region = "SF") := by
  constructor
  · exact fun rigMap rows m k a ha hsf => foldl_primary_sticky rigMap rows m k a ha hsf
  · refine ⟨[], ⟨"Ana", "", "SF-Lab", 1⟩, [("Ana", ⟨"Ana", "MX", 0, 1, 1⟩)], "Ana",
      ⟨"Ana", "MX", 0, 1, 1⟩, ⟨"Ana", "SF", 0 + 1, 1 + 1, 1 + 1⟩, ?_, ?_, ?_, ?_⟩ <;> decide

/-- C5 witness: a concrete SF aggregate stays SF across a subsequent
MX-classified row for the same identity. -/
theorem C5_sticky_sf_region_witness :
    ∃ b, alookup (([⟨"Ana", "", "mx site", 1⟩] : List CaRow).foldl (primaryStep [])
      [("Ana", ⟨"Ana", "SF", 2, 1, 1⟩)]) "Ana" = some b ∧ b.region = "SF" :=
  C5_sticky_sf_region.1 [] [⟨"Ana", "", "mx site", 1⟩] [("Ana", ⟨"Ana", "SF", 2, 1, 1⟩)]
    "Ana" ⟨"Ana", "SF", 2, 1, 1⟩ (by decide) (by decide)

/-- C6: identity resolution precedence.  For any roster-built rig map and
any CA_TAGGED row: (1) a nonempty trimmed explicit name wins, whatever the
rig map says; (2) otherwise a rig map hit supplies the name; (3) otherwise
the trimmed raw identifier itself is used when nonempty; (4) when the
explicit name and the raw identifier are both empty the row is skipped and
the aggregate map is unchanged. -/
theorem C6_identity_resolution_precedence (roster : List RosterRow) (row : CaRow)
    (m : List (String × Agg)) :
    (jsTrim row.nameCell ≠ "" →
      resolveCollectorName (jsTrim row.nameCell) (jsTrim row.rigCell) (buildRigToNameMap roster)
        = jsTrim row.nameCell) ∧
    (jsTrim row.nameCell = "" → ∀ n,
      alookup (buildRigToNameMap roster) (jsTrim row.rigCell) = some n →
      resolveCollectorName (jsTrim row.nameCell) (jsTrim row.rigCell) (buildRigToNameMap roster)
        = n) ∧
    (jsTrim row.nameCell = "" →
      alookup (buildRigToNameMap roster) (jsTrim row.rigCell) = none →
      jsTrim row.rigCell ≠ "" →
      resolveCollectorName (jsTrim row.nameCell) (jsTrim row.rigCell) (buildRigToNameMap roster)
        = jsTrim row.rigCell) ∧
    (jsTrim row.nameCell = "" → jsTrim row.rigCell = "" →
      primaryStep (buildRigToNameMap roster) m row = m) := by
  refine ⟨?_, ?_, ?_, ?_⟩
  · intro h
    simp [resolveCollectorName, jsOrElse, h]
  · intro h n hn
    have hne := (buildRig_nonempty roster _ _ hn).2
    simp [resolveCollectorName, jsOrElse, h, hn, hne]
  · intro h hn hr
    simp [resolveCollectorName, jsOrElse, h, hn]
  · intro h hr
    have hlook : alookup (buildRigToNameMap roster) "" = none := by
      cases hcase : alookup (buildRigToNameMap roster) "" with
      | none => rfl
      | some v => exact absurd rfl (buildRig_nonempty roster _ _ hcase).1
    have hres : resolveCollectorName (jsTrim row.nameCell) (jsTrim row.rigCell)
        (buildRigToNameMap roster) = "" := by
      rw [h, hr]
      simp [resolveCollectorName, jsOrElse, hlook]
    simp only [primaryStep]
    rw [if_pos hres]

/-- C6 witness: a row with explicit name Ana and rig R7 resolves to Ana
even though the rig map sends R7 to Other. -/
theorem C6_identity_resolution_precedence_witness :
    alookup (buildRigToNameMap [⟨"Other", "R7"⟩]) "R7" = some "Other" ∧
    resolveCollectorName (jsTrim "Ana") (jsTrim "R7") (buildRigToNameMap [⟨"Other", "R7"⟩])
      = jsTrim "Ana" :=
  ⟨by decide,
    (C6_identity_resolution_precedence [⟨"Other", "R7"⟩] ⟨"Ana", "R7", "", 0⟩ []).1 (by decide)⟩

/-- C8: the leaderboard builder sorts the aggregates (taken in map order)
by hours descending, keeps the relative order of entries with equal hours
(stability, stated as: the sublist with any fixed hours value is
unchanged by the sort), and assigns ranks index + 1 after sorting, so
ranks are 1-based and dense. -/
theorem C8_leaderboard_sort_stable_ranked (m : List (String × Agg)) :
    (buildRanked 0 (sortAggs (m.map (fun p => p.2)))).Pairwise
      (fun x y => y.hoursLogged ≤ x.hoursLogged) ∧
    (∀ h : ℚ, (sortAggs (m.map (fun p => p.2))).filter (fun e => decide (e.hours = h)) =
      (m.map (fun p => p.2)).filter (fun e => decide (e.hours = h))) ∧
    (∀ j (hj : j < (buildRanked 0 (sortAggs (m.map (fun p => p.2)))).length),
      ((buildRanked 0 (sortAggs (m.map (fun p => p.2)))).get ⟨j, hj⟩).rank = j + 1) := by
  refine ⟨?_, ?_, ?_⟩
  · have hs := sortAggs_sorted (m.map (fun p => p.2))
    have hmap := buildRanked_map_hours 0 (sortAggs (m.map (fun p => p.2)))
    have h1 : ((buildRanked 0 (sortAggs (m.map (fun p => p.2)))).map
        (fun e => e.hoursLogged)).Pairwise (fun q r => r ≤ q) := by
      rw [hmap]
      exact (List.pairwise_map).mpr hs
    exact (List.pairwise_map).mp h1
  · intro h
    exact sortAggs_filter h _
  · intro j hj
    have hr := buildRanked_get_rank (sortAggs (m.map (fun p => p.2))) 0 j hj
    simpa using hr

/-- C8 witness: in a two-entry map with equal hours the second listed
collector keeps the second place and receives rank 2. -/
theorem C8_leaderboard_sort_stable_ranked_witness :
    ((buildRanked 0 (sortAggs (([("A", ⟨"A", "MX", 2, 1, 1⟩), ("B", ⟨"B", "MX", 2, 1, 1⟩)]
        : List (String × Agg)).map (fun p => p.2)))).get ⟨1, by decide⟩).rank = 1 + 1 :=
  (C8_leaderboard_sort_stable_ranked [("A", ⟨"A", "MX", 2, 1, 1⟩), ("B", ⟨"B", "MX", 2, 1, 1⟩)]).2.2
    1 (by decide)

/-- C10: implicit invariant.  In every reachable reconciliation map the
tasks counter equals the assigned counter and is at least 1, and hence
every emitted leaderboard entry has tasksCompleted = tasksAssigned and
completionRate = 100. -/
theorem C10_completion_rate_always_100 (roster : List RosterRow) (caRows : List CaRow)
    (logRows : List LogRow) :
    (∀ p ∈ reconcile roster caRows logRows, p.2.tasks = p.2.assigned ∧ 1 ≤ p.2.assigned) ∧
    (∀ e ∈ handleGetLeaderboard roster caRows logRows,
      e.tasksCompleted = e.tasksAssigned ∧ e.completionRate = 100) := by
  have hm := tasksMatch_reconcile roster caRows logRows
  refine ⟨hm, ?_⟩
  intro e he
  unfold handleGetLeaderboard at he
  rcases buildRanked_mem 0 _ e he with ⟨a, hmem, h1, h2, h3⟩
  have ha : a ∈ (reconcile roster caRows logRows).map (fun p => p.2) :=
    (sortAggs_perm _).mem_iff.mp hmem
  rcases List.mem_map.mp ha with ⟨p, hp, hpa⟩
  have hinv := hm p hp
  have hta : a.tasks = a.assigned := by rw [← hpa]; exact hinv.1
  have h1a : 1 ≤ a.assigned := by rw [← hpa]; exact hinv.2
  constructor
  · rw [h1, h2, hta]
  · rw [h3, hta]
    exact rateOf_self a.assigned h1a

unseal Rat.add Rat.sub Rat.mul Rat.inv in
/-- C10 witness: the single aggregate produced by one CA_TAGGED row has
tasks = assigned = 1. -/
theorem C10_completion_rate_always_100_witness :
    ("Ana", (⟨"Ana", "SF", 0 + 2, 0 + 1, 0 + 1⟩ : Agg)).2.tasks
      = ("Ana", (⟨"Ana", "SF", 0 + 2, 0 + 1, 0 + 1⟩ : Agg)).2.assigned ∧
    1 ≤ ("Ana", (⟨"Ana", "SF", 0 + 2, 0 + 1, 0 + 1⟩ : Agg)).2.assigned :=
  (C10_completion_rate_always_100 [] [⟨"Ana", "", "SF", 2⟩] []).1
    ("Ana", (⟨"Ana", "SF", 0 + 2, 0 + 1, 0 + 1⟩ : Agg))
    (by decide)

/- ------------------------------------------------------------------ -/
/- Part 2: the fetch client and the two-tier cache of
   src/services/googleSheets.ts.

   JavaScript runtime values that flow through the cache are modelled by
   JsValue: undefined, null, booleans, numbers (rationals), strings,
   arrays and plain objects (field list in insertion order; objects
   produced by JSON.parse have unique keys). -/
/- ------------------------------------------------------------------ -/

inductive JsValue where
  | undefinedJs : JsValue
  | null : JsValue
  | bool (b : Bool) : JsValue
  | num (q : ℚ) : JsValue
  | str (s : String) : JsValue
  | arr (elems : List JsValue) : JsValue
  | obj (fields : List (String × JsValue)) : JsValue

/- The strict comparison v !== null used by the orchestrator to test for
   a cache miss. -/
def isNullJs : JsValue → Bool
  | .null => true
  | _ => false

/- Property access v.f: returns undefined for a missing field or a
   non-object, throws a TypeError (modelled as none) on null/undefined. -/
def jsMember (v : JsValue) (f : String) : Option JsValue :=
  match v with
  | .undefinedJs => none
  | .null => none
  | .obj fields => some ((alookup fields f).getD .undefinedJs)
  | _ => some .undefinedJs

/- Number(string) for plain decimal literals; anything else (hex,
   exponents, Infinity) is not produced by this code base and is mapped
   to NaN. -/
def digitsVal (cs : List Char) : ℕ :=
  cs.foldl (fun n c => 10 * n + (c.toNat - 48)) 0

def decCharsToRat (cs : List Char) : Option ℚ :=
  let ip := cs.takeWhile Char.isDigit
  let rest := cs.dropWhile Char.isDigit
  match rest with
  | [] => if ip.isEmpty then none else some ((digitsVal ip : ℚ))
  | c :: fp =>
    if c = '.' ∧ fp.all Char.isDigit ∧ (ip ≠ [] ∨ fp ≠ []) then
      some ((digitsVal ip : ℚ) + (digitsVal fp : ℚ) / ((10 : ℚ) ^ fp.length))
    else none

def jsStrToNum (s : String) : Option ℚ :=
  match trimChars s.data with
  | [] => some 0
  | '-' :: rest => (decCharsToRat rest).map (fun q => -q)
  | '+' :: rest => decCharsToRat rest
  | cs => decCharsToRat cs

/- Numeric coercion applied by the arithmetic in the freshness checks;
   none models NaN.  A one-element array coerces through the string form
   of its element. -/
def jsToNumber : JsValue → Option ℚ
  | .undefinedJs => none
  | .null => some 0
  | .bool b => some (if b then 1 else 0)
  | .num q => some q
  | .str s => jsStrToNum s
  | .arr [] => some 0
  | .arr [x] =>
    match x with
    | .num q => some q
    | .str s => jsStrToNum s
    | .null => some 0
    | .undefinedJs => some 0
    | _ => none
  | .arr (_ :: _ :: _) => none
  | .obj _ => none

/- ------------------------------------------------------------------ -/
/- TTL tables.  getMemoryTTL / getStorageTTL take the part of the key
   before the first colon and look it up, falling back to the default
   entry.  Times in integer milliseconds. -/
/- ------------------------------------------------------------------ -/

def ttlBaseKey (key : String) : String :=
  String.mk (key.data.takeWhile (fun c => c ≠ ':'))

def getMemoryTTL (key : String) : ℤ :=
  match ttlBaseKey key with
  | "collectors" => 300000
  | "tasks" => 300000
  | "leaderboard" => 120000
  | "adminDashboard" => 60000
  | "adminCollectors" => 120000
  | "taskRequirements" => 120000
  | _ => 30000

def getStorageTTL (key : String) : ℤ :=
  match ttlBaseKey key with
  | "collectors" => 1800000
  | "tasks" => 1800000
  | "leaderboard" => 600000
  | "adminDashboard" => 300000
  | "adminCollectors" => 600000
  | "taskRequirements" => 600000
  | _ => 120000

/- ------------------------------------------------------------------ -/
/- Memory tier: a Map from key to a CacheEntry value with data and the
   stored timestamp.  Modelled as a function, JavaScript Map keys being
   unique.  getFromMemory deletes an entry older than the memory TTL and
   reports a miss by returning null (so a stored data value that is
   itself null is indistinguishable from a miss, exactly as in the
   source, whose getFromMemory returns T or null). -/
/- ------------------------------------------------------------------ -/

structure MemEntry where
  data : JsValue
  ts : ℤ

def getFromMemory (now : ℤ) (key : String) (mem : String → Option MemEntry) :
    JsValue × (String → Option MemEntry) :=
  match mem key with
  | none => (.null, mem)
  | some e =>
    if now - e.ts > getMemoryTTL key then
      (.null, fun k => if k = key then none else mem k)
    else (e.data, mem)

def setInMemory (now : ℤ) (key : String) (data : JsValue)
    (mem : String → Option MemEntry) : String → Option MemEntry :=
  fun k => if k = key then some ⟨data, now⟩ else mem k

/- ------------------------------------------------------------------ -/
/- Durable tier (AsyncStorage).  A slot is absent when getItem yields a
   falsy result (no entry, or the empty string); otherwise the stored
   string either fails JSON.parse (malformed) or parses to a JsValue.
   The tf_cache_ prefix of the source is left implicit: slots are
   indexed by the logical cache key. -/
/- ------------------------------------------------------------------ -/

inductive StoredRaw where
  | malformed : StoredRaw
  | parsed (v : JsValue) : StoredRaw

/- getFromStorage.  The entire body of the source function sits in a try
   whose catch returns null: a JSON.parse throw and a TypeError from
   entry.ts on a parsed null both surface as null.  The freshness check
   Date.now() - entry.ts > getStorageTTL(key) removes and hides an entry
   only when entry.ts coerces to a number and the age exceeds the TTL;
   with a NaN age the comparison is false and the entry is served. -/
def getFromStorage (now : ℤ) (key : String) (st : String → Option StoredRaw) :
    JsValue × (String → Option StoredRaw) :=
  match st key with
  | none => (.null, st)
  | some .malformed => (.null, st)
  | some (.parsed v) =>
    match jsMember v "ts" with
    | none => (.null, st)
    | some tsv =>
      let expired : Bool :=
        match jsToNumber tsv with
        | none => false
        | some q => decide ((now : ℚ) - q > ((getStorageTTL key : ℤ) : ℚ))
      if expired then (.null, fun k => if k = key then none else st k)
      else ((jsMember v "data").getD .undefinedJs, st)

/- setInStorage serializes the entry as JSON text whose later parse
   yields the object below (the data written by this code base always
   round-trips; storage quota failures, swallowed by the source, are not
   modelled). -/
def setInStorage (now : ℤ) (key : String) (data : JsValue)
    (st : String → Option StoredRaw) : String → Option StoredRaw :=
  fun k => if k = key then some (.parsed (.obj [("data", data), ("ts", .num (now : ℚ))])) else st k

/- ------------------------------------------------------------------ -/
/- The orchestrated read cachedApiGet.  The single fetcher invocation of
   one call is modelled by its settled outcome; on the stale-serve path
   the background refresh runs after the return, and the state below is
   the state once it has settled (its failure is swallowed by the
   .catch).  One clock value serves the whole call. -/
/- ------------------------------------------------------------------ -/

structure CacheState where
  mem : String → Option MemEntry
  st : String → Option StoredRaw

def cachedApiGet (now : ℤ) (key : String) (fetchResult : Except String JsValue)
    (s : CacheState) : Except String JsValue × CacheState :=
  let memRes := getFromMemory now key s.mem
  if isNullJs memRes.1 = false then (.ok memRes.1, { s with mem := memRes.2 })
  else
    let s1 : CacheState := { s with mem := memRes.2 }
    let stRes := getFromStorage now key s1.st
    let s2 : CacheState := { s1 with st := stRes.2 }
    if isNullJs stRes.1 = false then
      let s3 : CacheState := { s2 with mem := setInMemory now key stRes.1 s2.mem }
      let s4 : CacheState :=
        match fetchResult with
        | .ok fresh =>
          { mem := setInMemory now key fresh s3.mem, st := setInStorage now key fresh s3.st }
        | .error _ => s3
      (.ok stRes.1, s4)
    else
      match fetchResult with
      | .ok fresh =>
        (.ok fresh, { mem := setInMemory now key fresh s2.mem, st := setInStorage now key fresh s2.st })
      | .error e => (.error e, s2)

/- ------------------------------------------------------------------ -/
/- The resilient fetch client apiGet.

   One attempt of the loop is driven by an externally supplied outcome:
   the fetch promise rejects with a message (timeouts abort through
   AbortController and surface here too), or a response arrives with
   ok = false carrying a status and a body text, or an ok response whose
   payload fails to parse as JSON (parseFail carries the cleaned text
   after stripping the JSON-hijacking prefix), or an ok response parsed
   into the success envelope. -/
/- ------------------------------------------------------------------ -/

structure Envelope where
  success : Bool
  data : JsValue
  error : Option String
  message : Option String

inductive AttemptOutcome where
  | fetchThrow (msg : String) : AttemptOutcome
  | httpError (status : ℕ) (body : String) : AttemptOutcome
  | parseFail (cleanText : String) : AttemptOutcome
  | envelope (env : Envelope) : AttemptOutcome

def MAX_RETRY_ATTEMPTS : ℕ := 2

def RETRY_DELAY_MS : List ℕ := [400, 1200]

def RETRYABLE_STATUS_CODES : List ℕ := [408, 429, 500, 502, 503, 504]

/- RETRY_DELAY_MS[attempt] ?? 1500 -/
def delayFor (attempt : ℕ) : ℕ := RETRY_DELAY_MS.getD attempt 1500

/- The four case-insensitive retry patterns applied to the error
   message. -/
def shouldRetryError (message : String) : Bool :=
  strIncludes (jsToLower message) "network" || strIncludes (jsToLower message) "timeout" ||
    strIncludes (jsToLower message) "abort" || strIncludes (jsToLower message) "failed to fetch"

/- The message of the error thrown for a non-retried HTTP status:
   HTTP status: text, with the fallback body text. -/
def httpErrorMessage (status : ℕ) (body : String) : String :=
  "HTTP " ++ toString status ++ ": " ++ jsOrElse body "Request failed"

/- json.error ?? json.message ?? fallback (nullish coalescing). -/
def envelopeErrorMessage (env : Envelope) : String :=
  (env.error).getD ((env.message).getD "Unknown API error")

/- cleanText || fallback thrown by tryParseResponseText. -/
def parseFailMessage (cleanText : String) : String :=
  jsOrElse cleanText "Invalid API response format"

/- The result of one apiGet call: the surfaced value or error, the number
   of attempts performed, and the list of backoff delays slept. -/
structure ApiCallResult where
  result : Except String JsValue
  attemptsMade : ℕ
  delays : List ℕ

/- The retry loop of apiGet, one constructor case per way an attempt can
   end.  A thrown error is caught by the catch block, which retries after
   RETRY_DELAY_MS[attempt] when attempts remain AND the message matches a
   retryable pattern, and otherwise rethrows as "Request failed: ...".
   A retryable HTTP status short-circuits inside the try (no message
   check).  fuel = MAX_RETRY_ATTEMPTS + 1 - attempt keeps the recursion
   structural; the fuel-exhausted line mirrors the unreachable
   "Request failed after retries" after the loop. -/
def apiGetLoop (outcomes : ℕ → AttemptOutcome) : (attempt fuel : ℕ) → ApiCallResult
  | _, 0 => ⟨.error "Request failed after retries", 0, []⟩
  | attempt, fuel + 1 =>
    match outcomes attempt with
    | .envelope env =>
      if env.success then ⟨.ok env.data, 1, []⟩
      else
        let m := envelopeErrorMessage env
        if attempt < MAX_RETRY_ATTEMPTS ∧ shouldRetryError m then
          let r := apiGetLoop outcomes (attempt + 1) fuel
          ⟨r.result, r.attemptsMade + 1, delayFor attempt :: r.delays⟩
        else ⟨.error ("Request failed: " ++ m), 1, []⟩
    | .fetchThrow m =>
      if attempt < MAX_RETRY_ATTEMPTS ∧ shouldRetryError m then
        let r := apiGetLoop outcomes (attempt + 1) fuel
        ⟨r.result, r.attemptsMade + 1, delayFor attempt :: r.delays⟩
      else ⟨.error ("Request failed: " ++ m), 1, []⟩
    | .parseFail t =>
      let m := parseFailMessage t
      if attempt < MAX_RETRY_ATTEMPTS ∧ shouldRetryError m then
        let r := apiGetLoop outcomes (attempt + 1) fuel
        ⟨r.result, r.attemptsMade + 1, delayFor attempt :: r.delays⟩
      else ⟨.error ("Request failed: " ++ m), 1, []⟩
    | .httpError status body =>
      if status ∈ RETRYABLE_STATUS_CODES ∧ attempt < MAX_RETRY_ATTEMPTS then
        let r := apiGetLoop outcomes (attempt + 1) fuel
        ⟨r.result, r.attemptsMade + 1, delayFor attempt :: r.delays⟩
      else
        let m := httpErrorMessage status body
        if attempt < MAX_RETRY_ATTEMPTS ∧ shouldRetryError m then
          let r := apiGetLoop outcomes (attempt + 1) fuel
          ⟨r.result, r.attemptsMade + 1, delayFor attempt :: r.delays⟩
        else ⟨.error ("Request failed: " ++ m), 1, []⟩

def apiGetModel (outcomes : ℕ → AttemptOutcome) : ApiCallResult :=
  apiGetLoop outcomes 0 (MAX_RETRY_ATTEMPTS + 1)

/- ------------------------------------------------------------------ -/
/- Claim theorems for the cache and the fetch client. -/
/- ------------------------------------------------------------------ -/

/-- C9: counterexample.  A stored string that parses as the JSON object
with a data field of 42 and no ts field fails to deserialize as a
value/storedAt cache entry, yet getFromStorage serves 42 instead of
treating the slot as absent: the unchecked cast lets the missing ts
produce a NaN age, the expiry test is false, and the data member is
returned. -/
theorem C9_shapeless_entry_served_not_absent :
    (getFromStorage 0 "tasks"
      (fun k => if k = "tasks" then some (.parsed (.obj [("data", .num 42)])) else none)).1
      = .num 42 ∧
    (getFromStorage 0 "tasks"
      (fun k => if k = "tasks" then some (.parsed (.obj [("data", .num 42)])) else none)).1
      ≠ .null := by
  constructor
  · rfl
  · intro h
    have h2 : JsValue.num 42 = JsValue.null := by
      rw [← h]
      rfl
    cases h2

/-- C9 amended: the durable get is fail-open for a missing slot, for a
stored string that fails JSON.parse, and for the stored text null (whose
ts access throws a TypeError that the catch turns into null): in each of
these cases it returns absent without modifying storage, and it never
throws outward (it is a total function).  A string that parses to any
other JSON value is instead served through the freshness check, returning
its data member even when the entry lacks the expected shape. -/
theorem C9_amended_fail_open (now : ℤ) (key : String) (st : String → Option StoredRaw)
    (h : st key = none ∨ st key = some .malformed ∨ st key = some (.parsed .null)) :
    getFromStorage now key st = (.null, st) := by
  rcases h with h | h | h <;> simp [getFromStorage, h, jsMember]

/-- C9 amended witness: a malformed stored string is reported absent. -/
theorem C9_amended_fail_open_witness :
    getFromStorage 5 "tasks" (fun k => if k = "tasks" then some .malformed else none)
      = (.null, fun k => if k = "tasks" then some .malformed else none) :=
  C9_amended_fail_open 5 "tasks" (fun k => if k = "tasks" then some .malformed else none)
    (Or.inr (Or.inl (by simp)))

unseal Rat.add Rat.sub Rat.mul Rat.inv in
/-- C2: counterexample.  A durable leaderboard entry stored at time 0 and
read at time 1000000000 (far beyond the 600000 ms durable TTL) with the
memory tier empty and the network failing is NOT served stale: the
orchestrated read deletes the entry, falls through to the synchronous
fetch and surfaces the network failure to the caller instead of the
stored value 42. -/
theorem C2_expired_durable_not_served :
    (cachedApiGet 1000000000 "leaderboard" (.error "Network request failed")
      ⟨fun _ => none,
       fun k => if k = "leaderboard" then
          some (.parsed (.obj [("data", .num 42), ("ts", .num 0)])) else none⟩).1
      = .error "Network request failed" ∧
    (cachedApiGet 1000000000 "leaderboard" (.error "Network request failed")
      ⟨fun _ => none,
       fun k => if k = "leaderboard" then
          some (.parsed (.obj [("data", .num 42), ("ts", .num 0)])) else none⟩).1
      ≠ .ok (.num 42) ∧
    ((cachedApiGet 1000000000 "leaderboard" (.error "Network request failed")
      ⟨fun _ => none,
       fun k => if k = "leaderboard" then
          some (.parsed (.obj [("data", .num 42), ("ts", .num 0)])) else none⟩).2).st
      "leaderboard" = none := by
  refine ⟨rfl, ?_, rfl⟩
  intro h
  have h2 : (Except.error "Network request failed" : Except String JsValue)
      = .ok (.num 42) := by
    rw [← h]
    rfl
  cases h2

/-- C2 amended: stale-while-revalidate holds exactly for durable entries
within the durable TTL.  With the memory tier missing the key, for a
well-formed durable entry (data d, numeric timestamp ts): when the age
now - ts does not exceed the durable TTL, the orchestrated read returns
the stored value d whatever the fetch outcome (a background refresh
failure is swallowed); when the age exceeds the durable TTL, the entry is
deleted and treated as absent, the read degrades to the synchronous
cold-miss fetch, and a fetch failure propagates to the caller. -/
theorem C2_amended_stale_serve_within_ttl (now : ℤ) (key : String) (d : JsValue) (ts : ℚ)
    (mem : String → Option MemEntry) (st : String → Option StoredRaw)
    (fetch : Except String JsValue)
    (hmem : (getFromMemory now key mem).1 = .null)
    (hst : st key = some (.parsed (.obj [("data", d), ("ts", .num ts)])))
    (hd : isNullJs d = false) :
    (((now : ℚ) - ts ≤ ((getStorageTTL key : ℤ) : ℚ)) →
      (cachedApiGet now key fetch ⟨mem, st⟩).1 = .ok d) ∧
    (((now : ℚ) - ts > ((getStorageTTL key : ℤ) : ℚ)) → ∀ e, fetch = .error e →
      (cachedApiGet now key fetch ⟨mem, st⟩).1 = .error e) := by
  constructor
  · intro hfresh
    have hnotlt : ¬ (((getStorageTTL key : ℤ) : ℚ) < (now : ℚ) - ts) := not_lt.mpr hfresh
    have hget : (getFromStorage now key st).1 = d := by
      simp [getFromStorage, hst, jsMember, alookup, jsToNumber, hnotlt]
    simp only [cachedApiGet, hmem]
    rw [if_neg (by simp [isNullJs])]
    simp only [hget]
    rw [if_pos hd]
  · intro hstale e he
    have hget : (getFromStorage now key st).1 = .null := by
      simp [getFromStorage, hst, jsMember, alookup, jsToNumber, hstale]
    simp only [cachedApiGet, hmem]
    rw [if_neg (by simp [isNullJs])]
    simp only [hget]
    rw [if_neg (by simp [isNullJs]), he]

unseal Rat.add Rat.sub Rat.mul Rat.inv in
/-- C2 amended witness: a durable leaderboard value aged 50000 ms (within
the 600000 ms durable TTL) is served to the caller although the refresh
fetch fails. -/
theorem C2_amended_stale_serve_within_ttl_witness :
    (cachedApiGet 100000 "leaderboard" (.error "boom")
      ⟨fun _ => none,
       fun k => if k = "leaderboard" then
          some (.parsed (.obj [("data", .num 42), ("ts", .num 50000)])) else none⟩).1
      = .ok (.num 42) :=
  (C2_amended_stale_serve_within_ttl 100000 "leaderboard" (.num 42) 50000
    (fun _ => none)
    (fun k => if k = "leaderboard" then
      some (.parsed (.obj [("data", .num 42), ("ts", .num 50000)])) else none)
    (.error "boom") rfl (by simp) rfl).1 (by decide)

unseal Rat.add Rat.sub Rat.mul Rat.inv in
/-- C7: counterexample.  For the key tasks, expired in the memory tier
(stored at time 0, read at time 1000000000, memory TTL 300000 ms) and
absent in the durable tier, a failing fetch propagates BUT the memory
tier is modified: the lookup evicts the expired entry, so the final
memory tier no longer holds the entry the initial state held,
contradicting the claim that neither tier is modified. -/
theorem C7_expired_entry_evicted_on_failed_fetch :
    (cachedApiGet 1000000000 "tasks" (.error "x")
      ⟨fun k => if k = "tasks" then some ⟨.num 1, 0⟩ else none, fun _ => none⟩).1
      = .error "x" ∧
    ((cachedApiGet 1000000000 "tasks" (.error "x")
      ⟨fun k => if k = "tasks" then some ⟨.num 1, 0⟩ else none, fun _ => none⟩).2).mem "tasks"
      = none ∧
    ((fun k => if k = "tasks" then some (⟨.num 1, 0⟩ : MemEntry) else none) "tasks")
      = some ⟨.num 1, 0⟩ ∧
    ((cachedApiGet 1000000000 "tasks" (.error "x")
      ⟨fun k => if k = "tasks" then some ⟨.num 1, 0⟩ else none, fun _ => none⟩).2).mem "tasks"
      ≠ ((fun k => if k = "tasks" then some (⟨.num 1, 0⟩ : MemEntry) else none) "tasks") := by
  refine ⟨rfl, rfl, rfl, ?_⟩
  intro h
  exact Option.noConfusion
    (show (none : Option MemEntry) = some ⟨.num 1, 0⟩ from h)

/-- C7 amended: cold-miss behaviour.  For a key absent or expired in the
memory tier and absent or expired (as a well-formed entry) in the durable
tier: when the fetcher rejects, the failure propagates to the caller,
nothing is cached (after the call the key is absent from both tiers),
every other key is untouched, and when the key was strictly absent in
both tiers the state is wholly unmodified; the only modification ever
made on the failing path is the eviction of the expired entries
themselves.  When the fetcher resolves, the value is returned and written
into both tiers with the current timestamp. -/
theorem C7_amended_cold_miss (now : ℤ) (key : String)
    (mem : String → Option MemEntry) (st : String → Option StoredRaw)
    (fetch : Except String JsValue)
    (hmem : mem key = none ∨ ∃ e, mem key = some e ∧ now - e.ts > getMemoryTTL key)
    (hst : st key = none ∨ ∃ d ts, st key = some (.parsed (.obj [("data", d), ("ts", .num ts)]))
      ∧ (now : ℚ) - ts > ((getStorageTTL key : ℤ) : ℚ)) :
    (∀ e, fetch = .error e →
      (cachedApiGet now key fetch ⟨mem, st⟩).1 = .error e ∧
      ((cachedApiGet now key fetch ⟨mem, st⟩).2).mem key = none ∧
      ((cachedApiGet now key fetch ⟨mem, st⟩).2).st key = none ∧
      (∀ k, k ≠ key → ((cachedApiGet now key fetch ⟨mem, st⟩).2).mem k = mem k ∧
        ((cachedApiGet now key fetch ⟨mem, st⟩).2).st k = st k) ∧
      (mem key = none → st key = none →
        (cachedApiGet now key fetch ⟨mem, st⟩).2 = ⟨mem, st⟩)) ∧
    (∀ v, fetch = .ok v →
      (cachedApiGet now key fetch ⟨mem, st⟩).1 = .ok v ∧
      ((cachedApiGet now key fetch ⟨mem, st⟩).2).mem key = some ⟨v, now⟩ ∧
      ((cachedApiGet now key fetch ⟨mem, st⟩).2).st key
        = some (.parsed (.obj [("data", v), ("ts", .num (now : ℚ))]))) := by
  have hmem1 : (getFromMemory now key mem).1 = .null := by
    rcases hmem with h | ⟨e, he, hexp⟩
    · simp [getFromMemory, h]
    · simp [getFromMemory, he, hexp]
  have hmem2 : (getFromMemory now key mem).2 key = none := by
    rcases hmem with h | ⟨e, he, hexp⟩
    · simp [getFromMemory, h]
    · simp [getFromMemory, he, hexp]
  have hmem3 : ∀ k, k ≠ key → (getFromMemory now key mem).2 k = mem k := by
    intro k hk
    rcases hmem with h | ⟨e, he, hexp⟩
    · simp [getFromMemory, h]
    · simp [getFromMemory, he, hexp, hk]
  have hmem4 : mem key = none → (getFromMemory now key mem).2 = mem := by
    intro h
    simp [getFromMemory, h]
  have hst1 : (getFromStorage now key st).1 = .null := by
    rcases hst with h | ⟨d, ts, hts, hexp⟩
    · simp [getFromStorage, h]
    · simp [getFromStorage, hts, jsMember, alookup, jsToNumber, hexp]
  have hst2 : (getFromStorage now key st).2 key = none := by
    rcases hst with h | ⟨d, ts, hts, hexp⟩
    · simp [getFromStorage, h]
    · simp [getFromStorage, hts, jsMember, alookup, jsToNumber, hexp]
  have hst3 : ∀ k, k ≠ key → (getFromStorage now key st).2 k = st k := by
    intro k hk
    rcases hst with h | ⟨d, ts, hts, hexp⟩
    · simp [getFromStorage, h]
    · simp [getFromStorage, hts, jsMember, alookup, jsToNumber, hexp, hk]
  have hst4 : st key = none → (getFromStorage now key st).2 = st := by
    intro h
    simp [getFromStorage, h]
  constructor
  · intro e he
    simp only [cachedApiGet, hmem1]
    rw [if_neg (by simp [isNullJs])]
    simp only [hst1]
    rw [if_neg (by simp [isNullJs]), he]
    refine ⟨rfl, hmem2, hst2, fun k hk => ⟨hmem3 k hk, hst3 k hk⟩, ?_⟩
    intro h1 h2
    show CacheState.mk (getFromMemory now key mem).2 (getFromStorage now key st).2 = ⟨mem, st⟩
    rw [hmem4 h1, hst4 h2]
  · intro v hv
    simp only [cachedApiGet, hmem1]
    rw [if_neg (by simp [isNullJs])]
    simp only [hst1]
    rw [if_neg (by simp [isNullJs]), hv]
    refine ⟨rfl, ?_, ?_⟩
    · simp [setInMemory]
    · simp [setInStorage]

unseal Rat.add Rat.sub Rat.mul Rat.inv in
/-- C7 amended witness: with both tiers strictly empty and a failing
fetch, the failure propagates and the state is wholly unmodified. -/
theorem C7_amended_cold_miss_witness :
    (cachedApiGet 7 "tasks" (.error "down") ⟨fun _ => none, fun _ => none⟩).1
      = .error "down" ∧
    (cachedApiGet 7 "tasks" (.error "down") ⟨fun _ => none, fun _ => none⟩).2
      = (⟨fun _ => none, fun _ => none⟩ : CacheState) := by
  have h := (C7_amended_cold_miss 7 "tasks" (fun _ => none) (fun _ => none)
    (.error "down") (Or.inl rfl) (Or.inl rfl)).1 "down" rfl
  exact ⟨h.1, h.2.2.2.2 rfl rfl⟩

/-- C3: counterexample.  A first-attempt envelope with success = false
and error text containing the word timeout IS retried: the thrown
semantic error is caught by the same catch block as transport errors and
its message matches the timeout pattern, so a retry attempt is consumed
(two attempts total, one 400 ms delay) and the second-attempt envelope is
returned.  This contradicts the claim that a success = false envelope is
surfaced immediately without retry regardless of the text of its
error/message field. -/
theorem C3_semantic_failure_retried_when_text_matches :
    apiGetModel (fun i => if i = 0 then
        .envelope ⟨false, .undefinedJs, some "timeout while reading sheet", none⟩
      else .envelope ⟨true, .num 7, none, none⟩)
      = ⟨.ok (.num 7), 2, [400]⟩ := by
  rfl

/-- C3 amended: a success = false envelope is thrown as an error carrying
the envelope error/message text and is treated by the catch block like
any other failure: when the text does NOT match a retryable pattern
(network, timeout, abort, failed to fetch, case-insensitive) it
propagates immediately after a single attempt, consuming no retries; when
the text does match and attempts remain, the call proceeds to the next
attempt after the 400 ms delay. -/
theorem C3_amended_semantic_error_retry_depends_on_text
    (outcomes : ℕ → AttemptOutcome) (env : Envelope)
    (h0 : outcomes 0 = .envelope env) (hs : env.success = false) :
    (shouldRetryError (envelopeErrorMessage env) = false →
      apiGetModel outcomes
        = ⟨.error ("Request failed: " ++ envelopeErrorMessage env), 1, []⟩) ∧
    (shouldRetryError (envelopeErrorMessage env) = true →
      apiGetModel outcomes
        = ⟨(apiGetLoop outcomes 1 2).result, (apiGetLoop outcomes 1 2).attemptsMade + 1,
            400 :: (apiGetLoop outcomes 1 2).delays⟩) := by
  constructor
  · intro hretry
    simp [apiGetModel, apiGetLoop, h0, hs, hretry, MAX_RETRY_ATTEMPTS]
  · intro hretry
    simp [apiGetModel, apiGetLoop, h0, hs, hretry, MAX_RETRY_ATTEMPTS, delayFor, RETRY_DELAY_MS]

/-- C3 amended witness: a success = false envelope whose text matches no
retryable pattern propagates after exactly one attempt with no delays. -/
theorem C3_amended_semantic_error_retry_depends_on_text_witness :
    apiGetModel (fun _ => .envelope ⟨false, .undefinedJs, some "quota exceeded for sheet", none⟩)
      = ⟨.error ("Request failed: " ++ "quota exceeded for sheet"), 1, []⟩ :=
  (C3_amended_semantic_error_retry_depends_on_text
    (fun _ => .envelope ⟨false, .undefinedJs, some "quota exceeded for sheet", none⟩)
    ⟨false, .undefinedJs, some "quota exceeded for sheet", none⟩ rfl rfl).1 (by decide)

/-- C4: retry ceiling.  When every attempt rejects with a transport
error whose message matches a retryable pattern (timeouts, aborts and
network failures all do), apiGet performs exactly 3 attempts in total
(1 initial + 2 retries), sleeping 400 ms after the first failure and
1200 ms after the second, and then surfaces the single final failure. -/
theorem C4_retry_ceiling_transport_errors (outcomes : ℕ → AttemptOutcome)
    (msgs : ℕ → String)
    (hout : ∀ i, outcomes i = .fetchThrow (msgs i))
    (hretry : ∀ i, shouldRetryError (msgs i) = true) :
    apiGetModel outcomes = ⟨.error ("Request failed: " ++ msgs 2), 3, [400, 1200]⟩ := by
  simp [apiGetModel, apiGetLoop, hout 0, hout 1, hout 2, hretry 0, hretry 1, hretry 2,
    MAX_RETRY_ATTEMPTS, delayFor, RETRY_DELAY_MS]

/-- C4 witness: a fetch that always times out is attempted exactly
3 times with delays 400 ms and 1200 ms and then fails once. -/
theorem C4_retry_ceiling_transport_errors_witness :
    apiGetModel (fun _ => .fetchThrow "timeout")
      = ⟨.error ("Request failed: " ++ "timeout"), 3, [400, 1200]⟩ := by
  have hh : shouldRetryError "timeout" = true := by decide
  exact C4_retry_ceiling_transport_errors (fun _ => .fetchThrow "timeout") (fun _ => "timeout")
    (fun _ => rfl) (fun _ => hh)
